import Mathlib

/-!
# Verification of the polymarket-whale-alerts core

Shallow embedding of the core pipeline of the `polymarket-whale-alerts`
repository (P&L settlement, the transactional ledger in `src/database.py`,
the enrichment merge in `src/enrichment.py`, the whale filter and
reconnection backoff in `src/websocket_client.py`, and the resolution
extraction in `src/resolution.py`), together with theorems settling the
spec's claims about it.

Numeric fields (`size`, `price`, P&L, volumes) are modelled as exact
rationals; timestamps stored as TEXT are modelled as strings compared
lexicographically, and the wallet-cache fetch time is modelled as a
rational epoch value.
-/

namespace PolymarketWhaleAlerts

/-! ## Python primitives used by the code -/

/-- ASCII uppercase of a string, modelling Python `str.upper()` as applied to
the ASCII tokens (`"YES"`, `"NO"`, `"BUY"`, `"SELL"`) this program compares. -/
def upper (s : String) : String := ⟨s.data.map Char.toUpper⟩

/-- Round-half-to-even of a rational to an integer, modelling Python's
built-in `round` applied to an exact value. -/
def roundHalfEven (q : ℚ) : ℤ :=
  if q - ⌊q⌋ < 1/2 then ⌊q⌋
  else if (1 : ℚ)/2 < q - ⌊q⌋ then ⌊q⌋ + 1
  else if ⌊q⌋ % 2 = 0 then ⌊q⌋ else ⌊q⌋ + 1

/-- Python `round(x, 2)` (two decimal places) modelled on rationals. -/
def round2 (q : ℚ) : ℚ := (roundHalfEven (q * 100) : ℚ) / 100

/-- Lexicographic byte order on strings, modelling SQLite's comparison of
TEXT values (our timestamps are ASCII ISO-8601 strings, for which
lexicographic order is chronological order). -/
def strLtb : List Char → List Char → Bool
  | [], [] => false
  | [], _ :: _ => true
  | _ :: _, [] => false
  | a :: as, b :: bs => if a < b then true else if b < a then false else strLtb as bs

/-- String comparison `a < b` as used by `timestamp < ?` in SQL. -/
def strLt (a b : String) : Bool := strLtb a.data b.data

/-! ## P&L formula (`src/database.py`, `calculate_trade_pnl`, lines 8-47) -/

/-- Translation of `calculate_trade_pnl` from `src/database.py`: decides
whether the trade won and its realized P&L, rounded to 2 decimal places. -/
def calculate_trade_pnl (bet_outcome side : String) (size price : ℚ)
    (resolved_outcome : String) : Bool × ℚ :=
  let bet_yes := upper bet_outcome == "YES"
  let resolved_yes := upper resolved_outcome == "YES"
  let is_buy := upper side == "BUY"
  let profits_from_yes := (is_buy && bet_yes) || (!is_buy && !bet_yes)
  let won := profits_from_yes == resolved_yes
  let pnl :=
    if won then
      if is_buy then size * (1 - price) else size * price
    else
      if is_buy then -(size * price) else -(size * (1 - price))
  (won, round2 pnl)

/-- Modelled from the spec: the `profits_from_yes` line of the spec's P&L
formula, stated in the spec's own terms (used to compare against the code). -/
def profits_from_yes_spec (side bet_outcome : String) : Bool :=
  (side == "BUY" && bet_outcome == "YES") || (side == "SELL" && bet_outcome == "NO")

/-- Modelled from the spec: the `won` line of the spec's P&L formula. -/
def won_spec (side bet_outcome resolved_outcome : String) : Bool :=
  profits_from_yes_spec side bet_outcome == (resolved_outcome == "YES")

/-- Modelled from the spec: the `pnl` branches of the spec's P&L formula,
including the final rounding to 2 decimal places. -/
def pnl_spec (side bet_outcome resolved_outcome : String) (size price : ℚ) : ℚ :=
  round2
    (if won_spec side bet_outcome resolved_outcome then
      if side == "BUY" then size * (1 - price) else size * price
    else
      if side == "BUY" then -(size * price) else -(size * (1 - price)))

/-- C1: for every side in {BUY, SELL}, bet outcome in {YES, NO}, resolved
outcome in {YES, NO} and rational size and price, `calculate_trade_pnl`
returns exactly the pair `(won, pnl)` dictated by the spec's P&L formula:
`profits_from_yes` iff (BUY and YES) or (SELL and NO), `won` iff
`profits_from_yes` agrees with (resolved = YES), the four pnl branches, and
rounding to 2 decimal places. -/
theorem calculate_trade_pnl_matches_spec (side bet res : String) (size price : ℚ)
    (hside : side = "BUY" ∨ side = "SELL") (hbet : bet = "YES" ∨ bet = "NO")
    (hres : res = "YES" ∨ res = "NO") :
    calculate_trade_pnl bet side size price res =
      (won_spec side bet res, pnl_spec side bet res size price) := by
  rcases hside with rfl | rfl <;> rcases hbet with rfl | rfl <;>
    rcases hres with rfl | rfl <;> rfl

/-- Witness for C1: the hypotheses are satisfied by the concrete input
(BUY, YES, resolved YES, size 10, price 0.6). -/
theorem calculate_trade_pnl_matches_spec_witness :
    ("BUY" = "BUY" ∨ "BUY" = "SELL") ∧ ("YES" = "YES" ∨ "YES" = "NO") ∧
      calculate_trade_pnl "YES" "BUY" 10 (6/10) "YES" =
        (won_spec "BUY" "YES" "YES", pnl_spec "BUY" "YES" "YES" 10 (6/10)) :=
  ⟨Or.inl rfl, Or.inl rfl,
    calculate_trade_pnl_matches_spec "BUY" "YES" "YES" 10 (6/10)
      (Or.inl rfl) (Or.inl rfl) (Or.inl rfl)⟩

/-- C2 counterexample: the spec's third test vector fails on the code. For
(SELL, NO, size 5, price 0.3, resolved NO) the formula gives
`profits_from_yes = true` (a SELL of NO profits from YES) while the market
resolved NO, so the trade lost: the code returns (false, −3.50), not the
claimed (true, 1.50). -/
theorem pnl_test_vector_three_fails :
    ¬ calculate_trade_pnl "NO" "SELL" 5 (3/10) "NO" = (true, 3/2) := by
  show ¬ (false, round2 (-(5 * (1 - 3/10)))) = (true, 3/2)
  simp

/-- C2 (amended): the P&L computation satisfies the spec's first two test
vectors as written; on the last two (both SELL positions whose bet outcome
equals the resolved outcome) it returns won=false and pnl=−3.50 rather than
the spec's won=true, pnl=1.50. -/
theorem pnl_test_vectors :
    calculate_trade_pnl "YES" "BUY" 10 (6/10) "YES" = (true, 4) ∧
    calculate_trade_pnl "YES" "BUY" 10 (6/10) "NO" = (false, -6) ∧
    calculate_trade_pnl "NO" "SELL" 5 (3/10) "NO" = (false, -(7/2)) ∧
    calculate_trade_pnl "YES" "SELL" 5 (3/10) "YES" = (false, -(7/2)) := by
  refine ⟨?_, ?_, ?_, ?_⟩
  · show (true, round2 (10 * (1 - 6/10))) = (true, 4)
    norm_num [round2, roundHalfEven]
  · show (false, round2 (-(10 * (6/10)))) = (false, -6)
    norm_num [round2, roundHalfEven]
  · show (false, round2 (-(5 * (1 - 3/10)))) = (false, -(7/2))
    norm_num [round2, roundHalfEven]
  · show (false, round2 (-(5 * (1 - 3/10)))) = (false, -(7/2))
    norm_num [round2, roundHalfEven]

/-! ## Ledger data model (schema created by `Database.init` in `src/database.py`) -/

/-- A row of the `wallets` table. `last_api_fetch` is stored as an ISO
timestamp in SQLite; we model it by the epoch value (in seconds) it denotes,
since the code only ever subtracts it from the current time. -/
structure WalletRow where
  address : String
  first_seen_at : String
  total_whale_trades : ℕ
  total_whale_volume : ℚ
  wins : ℕ
  losses : ℕ
  realized_pnl : ℚ
  leaderboard_rank : Option ℤ
  leaderboard_pnl : Option ℚ
  leaderboard_volume : Option ℚ
  api_trade_count : Option ℕ
  last_api_fetch : Option ℚ
  deriving Repr, DecidableEq

/-- A row of the `whale_trades` table. The settlement fields
`resolved_outcome`, `trade_won`, `pnl` are NULL (`none`) until the market
resolves. -/
structure TradeRow where
  id : ℕ
  timestamp : String
  wallet_address : String
  condition_id : String
  event_slug : Option String
  market_title : Option String
  outcome : String
  side : String
  size : ℚ
  price : ℚ
  trade_value : ℚ
  tx_hash : Option String
  resolved_outcome : Option String := none
  trade_won : Option Bool := none
  pnl : Option ℚ := none
  deriving Repr, DecidableEq

/-- The persistent database state: the two tables. -/
structure DB where
  wallets : List WalletRow
  trades : List TradeRow
  deriving Repr, DecidableEq

/-- SQL `SELECT ... FROM wallets WHERE address = ?` (first matching row). -/
def findWallet (ws : List WalletRow) (a : String) : Option WalletRow :=
  ws.find? (fun w => w.address == a)

/-- The `trade` dict passed to `record_whale_trade`: `timestamp` is optional
(`trade.get("timestamp", datetime.now().isoformat())`). -/
structure TradeInput where
  timestamp : Option String
  wallet_address : String
  condition_id : String
  event_slug : Option String
  market_title : Option String
  outcome : String
  side : String
  size : ℚ
  price : ℚ
  tx_hash : Option String
  deriving Repr, DecidableEq

/-- AUTOINCREMENT surrogate key for a new `whale_trades` row. -/
def nextTradeId (l : List TradeRow) : ℕ := l.foldr (fun t m => max t.id m) 0 + 1

/-- First statement of `record_whale_trade`: the
`INSERT INTO wallets ... ON CONFLICT(address) DO UPDATE` statement that
creates the wallet (first seen now, one trade, its value as volume) or bumps
`total_whale_trades` and `total_whale_volume`. -/
def upsertWalletStats (nowIso : String) (tr : TradeInput) (s : DB) : DB :=
  let trade_value := tr.size * tr.price
  match findWallet s.wallets tr.wallet_address with
  | some _ =>
      { s with wallets := s.wallets.map fun w =>
          if w.address == tr.wallet_address then
            { w with total_whale_trades := w.total_whale_trades + 1,
                     total_whale_volume := w.total_whale_volume + trade_value }
          else w }
  | none =>
      { s with wallets := s.wallets ++
          [{ address := tr.wallet_address, first_seen_at := nowIso,
             total_whale_trades := 1, total_whale_volume := trade_value,
             wins := 0, losses := 0, realized_pnl := 0,
             leaderboard_rank := none, leaderboard_pnl := none,
             leaderboard_volume := none, api_trade_count := none,
             last_api_fetch := none }] }

/-- The new `whale_trades` row inserted for a trade input, given the rows
already in the table. -/
def newTradeRow (nowIso : String) (tr : TradeInput) (existing : List TradeRow) : TradeRow :=
  { id := nextTradeId existing,
    timestamp := tr.timestamp.getD nowIso,
    wallet_address := tr.wallet_address,
    condition_id := tr.condition_id,
    event_slug := tr.event_slug,
    market_title := tr.market_title,
    outcome := tr.outcome,
    side := tr.side,
    size := tr.size,
    price := tr.price,
    trade_value := tr.size * tr.price,
    tx_hash := tr.tx_hash }

/-- Second statement of `record_whale_trade`: the `INSERT INTO whale_trades`
of the new, unsettled trade row. -/
def insertTradeRow (nowIso : String) (tr : TradeInput) (s : DB) : DB :=
  { s with trades := s.trades ++ [newTradeRow nowIso tr s.trades] }

/-- An SQLite transaction: the statements run inside one implicit
transaction that only becomes visible at the final `db.commit()`. If an
exception fires before the commit (`failBeforeCommit = some k`, a failure
after the first `k` statements), the connection context closes without
committing and the statements' effects are rolled back, leaving the
database as it was. -/
def runTxn (steps : List (DB → DB)) (failBeforeCommit : Option ℕ) (s : DB) : DB :=
  match failBeforeCommit with
  | some _ => s
  | none => steps.foldl (fun st f => f st) s

/-- The two statements of `record_whale_trade` (`src/database.py`,
lines 169-210), in program order. -/
def recordTradeSteps (nowIso : String) (tr : TradeInput) : List (DB → DB) :=
  [upsertWalletStats nowIso tr, insertTradeRow nowIso tr]

/-- Translation of `record_whale_trade`: both statements inside one
committed transaction. -/
def record_whale_trade (s : DB) (tr : TradeInput) (nowIso : String) : DB :=
  runTxn (recordTradeSteps nowIso tr) none s

/-! ## Settlement (`resolve_trades`, `src/database.py` lines 225-278) -/

/-- Boolean `won` component of `calculate_trade_pnl` for a stored trade row. -/
def wonOf (resolved_outcome : String) (t : TradeRow) : Bool :=
  (calculate_trade_pnl t.outcome t.side t.size t.price resolved_outcome).1

/-- Rounded P&L component of `calculate_trade_pnl` for a stored trade row. -/
def pnlOf (resolved_outcome : String) (t : TradeRow) : ℚ :=
  (calculate_trade_pnl t.outcome t.side t.size t.price resolved_outcome).2

/-- The `WHERE condition_id = ? AND trade_won IS NULL` selection predicate. -/
def unsettledFor (condition_id : String) (t : TradeRow) : Bool :=
  t.condition_id == condition_id && t.trade_won.isNone

/-- The per-trade `UPDATE whale_trades SET resolved_outcome, trade_won, pnl`. -/
def settleRow (resolved_outcome : String) (t : TradeRow) : TradeRow :=
  { t with resolved_outcome := some resolved_outcome,
           trade_won := some (wonOf resolved_outcome t),
           pnl := some (pnlOf resolved_outcome t) }

/-- The per-trade `UPDATE wallets SET wins = wins + ?, losses = losses + ?,
realized_pnl = realized_pnl + ? WHERE address = ?` applied to one wallet row. -/
def settleOneWallet (resolved_outcome : String) (t : TradeRow) (w : WalletRow) : WalletRow :=
  if w.address == t.wallet_address then
    { w with wins := w.wins + (if wonOf resolved_outcome t then 1 else 0),
             losses := w.losses + (if wonOf resolved_outcome t then 0 else 1),
             realized_pnl := w.realized_pnl + pnlOf resolved_outcome t }
  else w

/-- Translation of `resolve_trades`: selects the still-unsettled trades of
the market, settles each (writing `resolved_outcome`, `trade_won`, `pnl`)
and accumulates each trade's win/loss/P&L into its wallet row, in selection
order; returns the new state and the number of trades settled. The source
interleaves the two UPDATE statements per selected trade; since the trade
updates touch pairwise distinct rows of `whale_trades` and the wallet
updates only `wallets`, the committed net effect is this map over trades
together with this fold over the selection. -/
def resolve_trades (s : DB) (condition_id resolved_outcome : String) : DB × ℕ :=
  let sel := s.trades.filter (unsettledFor condition_id)
  ({ wallets := sel.foldl (fun ws t => ws.map (settleOneWallet resolved_outcome t)) s.wallets,
     trades := s.trades.map fun t =>
       if unsettledFor condition_id t then settleRow resolved_outcome t else t },
   sel.length)

/-! ## Retention cleanup (`cleanup_old_trades`, `src/database.py` lines 326-384) -/

/-- The statistics dict returned by `cleanup_old_trades`. -/
structure CleanupStats where
  deleted_trades : ℕ
  remaining_trades : ℕ
  unresolved_trades : ℕ
  total_wallets : ℕ
  cutoff_date : String
  deriving Repr, DecidableEq

/-- The `WHERE trade_won IS NOT NULL AND timestamp < ?` deletion predicate. -/
def oldSettled (cutoff : String) (t : TradeRow) : Bool :=
  t.trade_won.isSome && strLt t.timestamp cutoff

/-- Translation of `cleanup_old_trades`. The `cutoff` parameter is the ISO
string `(datetime.now() - timedelta(days=retention_days)).isoformat()`
computed by the source from the retention window; the deletion compares the
stored TEXT timestamps against it. The count of matching rows is taken
first and the DELETE only runs when it is positive, exactly as in the
source. -/
def cleanup_old_trades (s : DB) (cutoff : String) : DB × CleanupStats :=
  let trades_to_delete := (s.trades.filter (oldSettled cutoff)).length
  let trades1 := if 0 < trades_to_delete
    then s.trades.filter (fun t => !oldSettled cutoff t)
    else s.trades
  ({ s with trades := trades1 },
   { deleted_trades := trades_to_delete,
     remaining_trades := trades1.length,
     unresolved_trades := (trades1.filter (fun t => t.trade_won.isNone)).length,
     total_wallets := s.wallets.length,
     cutoff_date := cutoff })

/-! ## Wallet upsert and enrichment (`upsert_wallet` in `src/database.py`
lines 131-167, `WalletEnricher.enrich` in `src/enrichment.py` lines 41-95) -/

/-- A leaderboard entry as returned by `_fetch_leaderboard` (the first
element of the `/v1/leaderboard` response). -/
structure LBEntry where
  rank : Option ℤ
  pnl : Option ℚ
  vol : Option ℚ
  deriving Repr, DecidableEq

/-- The `api_data` dict built by `enrich`. The `trade_count` key is always
present (possibly with value `None`, modelled `none`); the three
leaderboard-derived keys are present only when `hasLeaderboard` is true. -/
structure ApiData where
  trade_count : Option ℕ
  hasLeaderboard : Bool
  leaderboard_rank : Option ℤ
  pnl : Option ℚ
  volume : Option ℚ
  deriving Repr, DecidableEq

/-- Python `api_data.get("leaderboard_rank")`: `None` when the key is
absent. -/
def ApiData.getRank (a : ApiData) : Option ℤ :=
  if a.hasLeaderboard then a.leaderboard_rank else none

/-- Python `api_data.get("pnl")`. -/
def ApiData.getPnl (a : ApiData) : Option ℚ :=
  if a.hasLeaderboard then a.pnl else none

/-- Python `api_data.get("volume")`. -/
def ApiData.getVolume (a : ApiData) : Option ℚ :=
  if a.hasLeaderboard then a.volume else none

/-- A fresh wallet row as inserted by `upsert_wallet` (all columns at their
schema defaults except address and first-seen time). -/
def emptyWallet (address nowIso : String) : WalletRow :=
  { address := address, first_seen_at := nowIso,
    total_whale_trades := 0, total_whale_volume := 0,
    wins := 0, losses := 0, realized_pnl := 0,
    leaderboard_rank := none, leaderboard_pnl := none,
    leaderboard_volume := none, api_trade_count := none,
    last_api_fetch := none }

/-- Translation of `upsert_wallet`: inserts the wallet row if absent, then
— when an `api_data` dict is passed (in the source the dict always holds at
least the `trade_count` key, so it is truthy) — overwrites the five cached
reputation columns with `api_data.get(...)` values and stamps the fetch
time. -/
def upsert_wallet (s : DB) (address nowIso : String) (now : ℚ)
    (api_data : Option ApiData) : DB :=
  let ws1 := match findWallet s.wallets address with
    | some _ => s.wallets
    | none => s.wallets ++ [emptyWallet address nowIso]
  let ws2 := match api_data with
    | some api => ws1.map fun w =>
        if w.address == address then
          { w with leaderboard_rank := api.getRank,
                   leaderboard_pnl := api.getPnl,
                   leaderboard_volume := api.getVolume,
                   api_trade_count := api.trade_count,
                   last_api_fetch := some now }
        else w
    | none => ws1
  { s with wallets := ws2 }

/-- Freshness check added by `get_wallet`:
`datetime.now() - fetched_at < timedelta(hours=24)`, false when the wallet
has never been fetched. -/
def api_data_fresh (w : WalletRow) (now : ℚ) : Bool :=
  match w.last_api_fetch with
  | some fetched_at => if now - fetched_at < 24 * 3600 then true else false
  | none => false

/-- The `api_data` dict as built by `enrich` from the two parallel fetch
results: a failed `/trades` call (`none`, covering timeouts, 429s and
errors) leaves `trade_count = None`, a successful one stores the length of
the returned list; leaderboard keys are set only when `_fetch_leaderboard`
returned an entry, with a falsy (zero) rank coerced to `None` by
`int(rank) if rank else None`. -/
def buildApiData (tradesResp : Option (List Unit)) (lbResp : Option LBEntry) : ApiData :=
  { trade_count := tradesResp.map List.length,
    hasLeaderboard := lbResp.isSome,
    leaderboard_rank := match lbResp with
      | some e => match e.rank with
        | some r => if r = 0 then none else some r
        | none => none
      | none => none,
    pnl := match lbResp with
      | some e => e.pnl
      | none => none,
    volume := match lbResp with
      | some e => e.vol
      | none => none }

/-- The dict `enrich` returns on the stale path when a prior wallet row
existed: `wallet.update(api_data)`. Only the `leaderboard_rank` key is
shared between the row dict and `api_data`, so it alone can be overwritten
(and only when the leaderboard keys are present); the row's
`api_trade_count`, `leaderboard_pnl` and `leaderboard_volume` entries are
untouched because `api_data` stores those values under the different key
names `trade_count`, `pnl` and `volume` (`trade_count_key` records the
always-added `trade_count` entry). -/
structure MergedWallet where
  api_trade_count : Option ℕ
  leaderboard_rank : Option ℤ
  leaderboard_pnl : Option ℚ
  leaderboard_volume : Option ℚ
  trade_count_key : Option ℕ
  api_data_fresh : Bool
  deriving Repr, DecidableEq

/-- The three possible return shapes of `enrich`. -/
inductive EnrichReturn where
  | cached (w : WalletRow)
  | merged (m : MergedWallet)
  | apiOnly (a : ApiData)
  deriving Repr, DecidableEq

/-- Translation of `WalletEnricher.enrich`: returns the cached row when it
is fresh; otherwise builds `api_data` from the two fetch results
(`tradesResp`, `lbResp`), persists it through `upsert_wallet`, and returns
the merged dict (or the bare `api_data` when no row existed). -/
def enrich (s : DB) (address : String) (now : ℚ) (nowIso : String)
    (tradesResp : Option (List Unit)) (lbResp : Option LBEntry) : DB × EnrichReturn :=
  match findWallet s.wallets address with
  | some w =>
      if api_data_fresh w now then (s, .cached w)
      else
        let api := buildApiData tradesResp lbResp
        (upsert_wallet s address nowIso now (some api),
         .merged
           { api_trade_count := w.api_trade_count,
             leaderboard_rank :=
               if api.hasLeaderboard then api.leaderboard_rank else w.leaderboard_rank,
             leaderboard_pnl := w.leaderboard_pnl,
             leaderboard_volume := w.leaderboard_volume,
             trade_count_key := api.trade_count,
             api_data_fresh := true })
  | none =>
      let api := buildApiData tradesResp lbResp
      (upsert_wallet s address nowIso now (some api), .apiOnly api)

/-! ## Whale filter and reconnection backoff (`src/websocket_client.py`) -/

/-- A numeric JSON field that may arrive as a number or as a numeric
string; `str q` stands for a string whose `float(...)` coercion denotes the
value `q`. -/
inductive JsonNum where
  | num (q : ℚ)
  | str (q : ℚ)
  deriving Repr, DecidableEq

/-- The coercion step of `_process_trade`: a numeric string is converted by
`float(...)`, a number is used as-is. -/
def JsonNum.toVal : JsonNum → ℚ
  | .num q => q
  | .str q => q

/-- Translation of `RTDSClient._process_trade` (lines 156-174): reads
`size` and `price` (defaulting to 0 when absent), coerces numeric strings,
computes `trade_value = size * price` and, when `trade_value` is at least
the whale threshold, increments the whale counter and emits the trade.
Returns (emitted, new whale counter). -/
def process_trade (whale_threshold : ℚ) (whale_count : ℕ)
    (size price : Option JsonNum) : Bool × ℕ :=
  let sizeV := (size.getD (JsonNum.num 0)).toVal
  let priceV := (price.getD (JsonNum.num 0)).toVal
  let trade_value := sizeV * priceV
  if whale_threshold ≤ trade_value then (true, whale_count + 1)
  else (false, whale_count)

/-- Module constant `RECONNECT_DELAY_BASE = 5` seconds. -/
def RECONNECT_DELAY_BASE : ℕ := 5

/-- Module constant `RECONNECT_DELAY_MAX = 60` seconds. -/
def RECONNECT_DELAY_MAX : ℕ := 60

/-- The backoff update run after each failed connection attempt
(`self._reconnect_delay = min(self._reconnect_delay * 2, RECONNECT_DELAY_MAX)`). -/
def nextReconnectDelay (d : ℕ) : ℕ := min (d * 2) RECONNECT_DELAY_MAX

/-- The delay slept before the (n+1)-st reconnection attempt after n
consecutive failed attempts starting from a fresh (or just-reset) state:
the loop sleeps the current `_reconnect_delay`, then doubles it with the
cap. -/
def reconnectDelayAfter : ℕ → ℕ
  | 0 => RECONNECT_DELAY_BASE
  | n + 1 => nextReconnectDelay (reconnectDelayAfter n)

/-- The assignment `self._reconnect_delay = RECONNECT_DELAY_BASE` executed
immediately after every successful connection (line 57). -/
def delayAfterSuccess : ℕ := RECONNECT_DELAY_BASE

/-! ## Resolution extraction (`ResolutionTracker._extract_resolution`,
`src/resolution.py` lines 108-143) -/

/-- A market metadata record from the Gamma API, with the fields
`_extract_resolution` inspects. Missing JSON fields are `none`; an entry of
`outcomePrices` is `none` when `float(price)` raises (unparsable). -/
structure Market where
  closed : Bool
  resolved : Bool
  outcome : Option String
  outcomes : List String
  outcomePrices : List (Option ℚ)
  resolvedOutcome : Option String
  deriving Repr, DecidableEq

/-- Python truthiness of an optional string field (`if outcome:`): an
absent field and an empty string are both falsy. -/
def truthyStr : Option String → Bool
  | some s => !(s == "")
  | none => false

/-- The price-vector scan of `_extract_resolution`: walk `outcomePrices`
with its index; at the first parsable price at or above 0.99 whose index is
in range of `outcomes`, return that outcome (an in-range check failure or
an unparsable price just continues the loop). -/
def priceScan (outcomes : List String) : List (Option ℚ) → ℕ → Option String
  | [], _ => none
  | p :: rest, i =>
      match p with
      | some q =>
          if 99/100 ≤ q ∧ i < outcomes.length then outcomes.get? i
          else priceScan outcomes rest (i + 1)
      | none => priceScan outcomes rest (i + 1)

/-- Translation of `_extract_resolution`: returns `none` unless the market
is marked closed or resolved; then tries, in order, the explicit `outcome`
field, the near-certainty (≥ 0.99) price scan (only when both `outcomes`
and `outcomePrices` are non-empty, mirroring `if prices and outcomes:`),
and the alternate `resolvedOutcome` field. -/
def extract_resolution (m : Market) : Option String :=
  if !(m.closed || m.resolved) then none
  else if truthyStr m.outcome then m.outcome
  else
    let scanned :=
      if !(m.outcomePrices.isEmpty) ∧ !(m.outcomes.isEmpty) then
        priceScan m.outcomes m.outcomePrices 0
      else none
    match scanned with
    | some o => some o
    | none => if truthyStr m.resolvedOutcome then m.resolvedOutcome else none

/-- Modelled from the spec: the fallback chain exactly as the spec words it
— "(1) an explicit outcome field; (2) if a price-per-outcome vector is
present, the outcome whose price is at or above the 0.99 near-certainty
threshold; (3) an alternate-named resolved-outcome field; if none apply, no
resolution is returned". Used to compare the code against the claim. -/
def resolutionChainSpec (m : Market) : Option String :=
  if truthyStr m.outcome then m.outcome
  else
    match (if !(m.outcomePrices.isEmpty) ∧ !(m.outcomes.isEmpty) then
             priceScan m.outcomes m.outcomePrices 0
           else none) with
    | some o => some o
    | none => if truthyStr m.resolvedOutcome then m.resolvedOutcome else none

/-! ## Wallet-aggregate invariant (spec §3) and sample states -/

/-- The settled trades recorded for a wallet address. -/
def settledFor (trades : List TradeRow) (a : String) : List TradeRow :=
  trades.filter fun t => t.wallet_address == a && t.trade_won.isSome

/-- The sum of `pnl` over a wallet's settled trades. -/
def settledPnlSum (trades : List TradeRow) (a : String) : ℚ :=
  ((settledFor trades a).map (fun t => t.pnl.getD 0)).sum

/-- The spec's wallet-aggregate invariant: for every wallet row,
`wins + losses` is at most the number of settled trades recorded for that
wallet and `realized_pnl` is the sum of `pnl` over them. -/
def walletAggInvariant (s : DB) : Prop :=
  ∀ w ∈ s.wallets,
    w.wins + w.losses ≤ (settledFor s.trades w.address).length ∧
    w.realized_pnl = settledPnlSum s.trades w.address

/-- The schema's FOREIGN KEY constraint: every trade row references an
existing wallet row. -/
def fkWellFormed (s : DB) : Prop :=
  ∀ t ∈ s.trades, ∃ w ∈ s.wallets, w.address = t.wallet_address

/-- Number of winning trades for an address in a settled batch. -/
def winsDelta (out : String) (l : List TradeRow) (a : String) : ℕ :=
  (l.filter fun t => t.wallet_address == a && wonOf out t).length

/-- Number of losing trades for an address in a settled batch. -/
def lossesDelta (out : String) (l : List TradeRow) (a : String) : ℕ :=
  (l.filter fun t => t.wallet_address == a && !wonOf out t).length

/-- Total P&L for an address in a settled batch. -/
def pnlDelta (out : String) (l : List TradeRow) (a : String) : ℚ :=
  ((l.filter fun t => t.wallet_address == a).map (pnlOf out)).sum

/-- Net effect on one wallet row of settling a batch of trades. -/
def bumpWallet (out : String) (l : List TradeRow) (w : WalletRow) : WalletRow :=
  { w with wins := w.wins + winsDelta out l w.address,
           losses := w.losses + lossesDelta out l w.address,
           realized_pnl := w.realized_pnl + pnlDelta out l w.address }

/-- Sample empty database used to instantiate hypotheses concretely. -/
def emptyDB : DB := { wallets := [], trades := [] }

/-- Sample whale-trade input used to instantiate hypotheses concretely. -/
def sampleTrade : TradeInput :=
  { timestamp := some "2024-01-01T00:00:00",
    wallet_address := "0xabc", condition_id := "cond1",
    event_slug := none, market_title := none,
    outcome := "YES", side := "BUY", size := 10, price := 6/10,
    tx_hash := none }

/-- A sample already-settled trade row. -/
def settledRow0 : TradeRow :=
  { id := 1, timestamp := "2024-01-01T00:00:00",
    wallet_address := "0xabc", condition_id := "cond1",
    event_slug := none, market_title := none,
    outcome := "YES", side := "BUY", size := 10, price := 6/10,
    trade_value := 6, tx_hash := none,
    resolved_outcome := some "Yes", trade_won := some true, pnl := some 4 }

/-- A sample wallet row whose aggregates match `settledRow0`. -/
def walletA : WalletRow :=
  { address := "0xabc", first_seen_at := "2024-01-01T00:00:00",
    total_whale_trades := 1, total_whale_volume := 6,
    wins := 1, losses := 0, realized_pnl := 4,
    leaderboard_rank := none, leaderboard_pnl := none,
    leaderboard_volume := none, api_trade_count := none,
    last_api_fetch := none }

/-- A sample database satisfying the wallet-aggregate invariant: one wallet
with one settled trade. -/
def dbBeforeCleanup : DB := { wallets := [walletA], trades := [settledRow0] }

/-- A sample wallet row carrying cached leaderboard data whose cache has
never been stamped (so it counts as stale). -/
def cachedWallet0 : WalletRow :=
  { address := "0xabc", first_seen_at := "2024-01-01T00:00:00",
    total_whale_trades := 3, total_whale_volume := 0,
    wins := 0, losses := 0, realized_pnl := 0,
    leaderboard_rank := some 5, leaderboard_pnl := some 7,
    leaderboard_volume := some 9, api_trade_count := some 42,
    last_api_fetch := none }

/-! ## General lemmas -/

/-- Wallet lookup commutes with an address-preserving row transformation. -/
theorem findWallet_map (ws : List WalletRow) (f : WalletRow → WalletRow)
    (hf : ∀ w, (f w).address = w.address) (a : String) :
    findWallet (ws.map f) a = (findWallet ws a).map f := by
  have hcomp : ((fun w : WalletRow => w.address == a) ∘ f) =
      fun w : WalletRow => w.address == a := by
    funext w
    simp [Function.comp, hf w]
  unfold findWallet
  rw [List.find?_map, hcomp]

/-! ## C4: atomicity of `record_whale_trade` -/

/-- C4: `record_whale_trade` is atomic. Any failure before the single
commit rolls the whole transaction back (the result is either the original
state or the fully applied one, never a mixture); in particular a failure
after the first statement — between the aggregate-counter update and the
trade insert — leaves both the wallets table and the trades table
untouched. On success both effects apply: the trade row is appended, and
the wallet's `total_whale_trades` and `total_whale_volume` are bumped
(the wallet being created if unseen). -/
theorem record_whale_trade_atomic (s : DB) (tr : TradeInput) (nowIso : String)
    (failBeforeCommit : Option ℕ) :
    (runTxn (recordTradeSteps nowIso tr) failBeforeCommit s = s ∨
      runTxn (recordTradeSteps nowIso tr) failBeforeCommit s = record_whale_trade s tr nowIso) ∧
    ((runTxn (recordTradeSteps nowIso tr) (some 1) s).wallets = s.wallets ∧
      (runTxn (recordTradeSteps nowIso tr) (some 1) s).trades = s.trades) ∧
    (record_whale_trade s tr nowIso).trades = s.trades ++ [newTradeRow nowIso tr s.trades] ∧
    (∀ w, findWallet s.wallets tr.wallet_address = some w →
      findWallet (record_whale_trade s tr nowIso).wallets tr.wallet_address =
        some { w with total_whale_trades := w.total_whale_trades + 1,
                      total_whale_volume := w.total_whale_volume + tr.size * tr.price }) ∧
    (findWallet s.wallets tr.wallet_address = none →
      findWallet (record_whale_trade s tr nowIso).wallets tr.wallet_address =
        some { emptyWallet tr.wallet_address nowIso with
               total_whale_trades := 1,
               total_whale_volume := tr.size * tr.price }) := by
  refine ⟨?_, ⟨rfl, rfl⟩, ?_, ?_, ?_⟩
  · cases failBeforeCommit with
    | none => exact Or.inr rfl
    | some k => exact Or.inl rfl
  · show (insertTradeRow nowIso tr (upsertWalletStats nowIso tr s)).trades =
      s.trades ++ [newTradeRow nowIso tr s.trades]
    cases h : findWallet s.wallets tr.wallet_address <;>
      simp [insertTradeRow, upsertWalletStats, h]
  · intro w hw
    show findWallet (insertTradeRow nowIso tr (upsertWalletStats nowIso tr s)).wallets
      tr.wallet_address = _
    have haddr : ∀ v : WalletRow,
        ((if v.address == tr.wallet_address then
            { v with total_whale_trades := v.total_whale_trades + 1,
                     total_whale_volume := v.total_whale_volume + tr.size * tr.price }
          else v) : WalletRow).address = v.address := by
      intro v
      by_cases h : v.address == tr.wallet_address <;> simp [h]
    have hp : (w.address == tr.wallet_address) = true := by
      have h2 : List.find? (fun v : WalletRow => v.address == tr.wallet_address)
          s.wallets = some w := hw
      simpa using List.find?_some h2
    have heq : w.address = tr.wallet_address := by simpa using hp
    simp only [insertTradeRow, upsertWalletStats, hw]
    rw [findWallet_map _ _ haddr, hw]
    simp [heq]
  · intro hnone
    show findWallet (insertTradeRow nowIso tr (upsertWalletStats nowIso tr s)).wallets
      tr.wallet_address = _
    simp only [insertTradeRow, upsertWalletStats, hnone]
    unfold findWallet at hnone ⊢
    rw [List.find?_append, hnone]
    simp [emptyWallet]

/-- Witness for C4: at a concrete empty database and trade, the simulated
failure between the two statements leaves the trades table untouched, and
the unseen-wallet hypothesis of the success postcondition is discharged by
computation. -/
theorem record_whale_trade_atomic_witness :
    (runTxn (recordTradeSteps "t0" sampleTrade) (some 1) emptyDB).trades = emptyDB.trades ∧
    findWallet (record_whale_trade emptyDB sampleTrade "t0").wallets
        sampleTrade.wallet_address =
      some { emptyWallet sampleTrade.wallet_address "t0" with
             total_whale_trades := 1,
             total_whale_volume := sampleTrade.size * sampleTrade.price } :=
  ⟨(record_whale_trade_atomic emptyDB sampleTrade "t0" (some 1)).2.1.2,
   (record_whale_trade_atomic emptyDB sampleTrade "t0" (some 1)).2.2.2.2 rfl⟩

/-! ## C3: structural idempotence of `resolve_trades` -/

/-- When a state holds no unsettled trade for the market, `resolve_trades`
returns it unchanged with a count of zero. -/
theorem resolve_trades_noop (s : DB) (cid out : String)
    (h : ∀ t ∈ s.trades, unsettledFor cid t = false) :
    resolve_trades s cid out = (s, 0) := by
  have hfil : s.trades.filter (unsettledFor cid) = [] :=
    List.filter_eq_nil_iff.mpr (by intro a ha; simp [h a ha])
  have hmap : s.trades.map
      (fun t => if unsettledFor cid t then settleRow out t else t) = s.trades := by
    refine (List.map_congr_left ?_).trans (List.map_id _)
    intro t ht
    simp [h t ht]
  unfold resolve_trades
  simp only [hfil, hmap, List.foldl_nil, List.length_nil]

/-- C3: `resolve_trades` is structurally idempotent. A trade whose
`trade_won` is already non-null is carried over unchanged by any
`resolve_trades` call (its settlement fields are never modified again), and
calling `resolve_trades` a second time for the same market and outcome
finds no unsettled trade: it returns the state unchanged with a count of
zero, touching no trade row and no wallet aggregate. -/
theorem resolve_trades_idempotent (s : DB) (cid out : String) :
    (∀ t ∈ s.trades, t.trade_won ≠ none → t ∈ (resolve_trades s cid out).1.trades) ∧
    resolve_trades (resolve_trades s cid out).1 cid out =
      ((resolve_trades s cid out).1, 0) := by
  constructor
  · intro t ht hw
    have hnone : t.trade_won.isNone = false := by
      cases h : t.trade_won with
      | none => exact absurd h hw
      | some b => rfl
    have hu : unsettledFor cid t = false := by
      simp [unsettledFor, hnone]
    show t ∈ s.trades.map _
    exact List.mem_map.mpr ⟨t, ht, by simp [hu]⟩
  · have hall : ∀ t ∈ (resolve_trades s cid out).1.trades, unsettledFor cid t = false := by
      intro t ht
      have hmem : t ∈ s.trades.map
          (fun t => if unsettledFor cid t then settleRow out t else t) := ht
      obtain ⟨u, hu, rfl⟩ := List.mem_map.mp hmem
      cases h : unsettledFor cid u with
      | false => simp [h]
      | true => simp [h, unsettledFor, settleRow]
    exact resolve_trades_noop _ cid out hall

/-- Witness for C3: a database holding one already-settled trade; the
settled row survives resolution untouched and the repeated call is a
no-op. -/
theorem resolve_trades_idempotent_witness :
    settledRow0 ∈
      (resolve_trades { wallets := [], trades := [settledRow0] } "cond1" "Yes").1.trades ∧
    resolve_trades
        (resolve_trades { wallets := [], trades := [settledRow0] } "cond1" "Yes").1
        "cond1" "Yes" =
      ((resolve_trades { wallets := [], trades := [settledRow0] } "cond1" "Yes").1, 0) :=
  ⟨(resolve_trades_idempotent { wallets := [], trades := [settledRow0] } "cond1" "Yes").1
      settledRow0 (by simp) (by simp [settledRow0]),
   (resolve_trades_idempotent { wallets := [], trades := [settledRow0] } "cond1" "Yes").2⟩

/-! ## C7: retention cleanup deletes exactly the old settled trades -/

/-- The trades table left by `cleanup_old_trades` is the filter keeping
every trade that is not both settled and older than the cutoff (the
source's skip of the DELETE when nothing matches changes nothing). -/
theorem cleanup_old_trades_trades_eq (s : DB) (cutoff : String) :
    (cleanup_old_trades s cutoff).1.trades =
      s.trades.filter (fun t => !oldSettled cutoff t) := by
  unfold cleanup_old_trades
  by_cases h : 0 < (s.trades.filter (oldSettled cutoff)).length
  · simp [h]
  · have h0 : s.trades.filter (oldSettled cutoff) = [] :=
      List.length_eq_zero.mp (by omega)
    have hfil : s.trades.filter (fun t => !oldSettled cutoff t) = s.trades := by
      refine List.filter_eq_self.mpr ?_
      intro a ha
      have := List.filter_eq_nil_iff.mp h0 a ha
      simp [this]
    simp [h, hfil]

/-- C7: for every cutoff (the source computes it as now − retentionDays),
`cleanup_old_trades` keeps exactly the trades that are not (settled and
strictly older than the cutoff); unsettled trades are kept regardless of
age; settled trades at or after the cutoff are kept; the returned counts
satisfy deleted + remaining = total and remaining is the number of rows
left; wallets are untouched. -/
theorem cleanup_old_trades_exact (s : DB) (cutoff : String) :
    (∀ t, t ∈ (cleanup_old_trades s cutoff).1.trades ↔
        t ∈ s.trades ∧ ¬(t.trade_won ≠ none ∧ strLt t.timestamp cutoff = true)) ∧
    (∀ t ∈ s.trades, t.trade_won = none → t ∈ (cleanup_old_trades s cutoff).1.trades) ∧
    (∀ t ∈ s.trades, strLt t.timestamp cutoff = false →
        t ∈ (cleanup_old_trades s cutoff).1.trades) ∧
    (cleanup_old_trades s cutoff).2.deleted_trades +
        (cleanup_old_trades s cutoff).2.remaining_trades = s.trades.length ∧
    (cleanup_old_trades s cutoff).2.remaining_trades =
        (cleanup_old_trades s cutoff).1.trades.length ∧
    (cleanup_old_trades s cutoff).1.wallets = s.wallets := by
  have old_iff : ∀ t : TradeRow, oldSettled cutoff t = false ↔
      ¬(t.trade_won ≠ none ∧ strLt t.timestamp cutoff = true) := by
    intro t
    cases hw : t.trade_won with
    | none => simp [oldSettled, hw]
    | some b => simp [oldSettled, hw]
  have mem_iff : ∀ t, t ∈ (cleanup_old_trades s cutoff).1.trades ↔
      t ∈ s.trades ∧ oldSettled cutoff t = false := by
    intro t
    rw [cleanup_old_trades_trades_eq]
    simp [List.mem_filter]
  refine ⟨?_, ?_, ?_, ?_, ?_, ?_⟩
  · intro t
    rw [mem_iff, old_iff]
  · intro t ht hw
    rw [mem_iff]
    exact ⟨ht, by simp [oldSettled, hw]⟩
  · intro t ht hlt
    rw [mem_iff]
    exact ⟨ht, by simp [oldSettled, hlt]⟩
  · have hsplit := List.length_eq_length_filter_add (l := s.trades) (oldSettled cutoff)
    have hrem : (cleanup_old_trades s cutoff).2.remaining_trades =
        (s.trades.filter (fun t => !oldSettled cutoff t)).length := by
      unfold cleanup_old_trades
      by_cases h : 0 < (s.trades.filter (oldSettled cutoff)).length
      · simp [h]
      · have h0 : s.trades.filter (oldSettled cutoff) = [] :=
          List.length_eq_zero.mp (by omega)
        have hfil : s.trades.filter (fun t => !oldSettled cutoff t) = s.trades := by
          refine List.filter_eq_self.mpr ?_
          intro a ha
          have := List.filter_eq_nil_iff.mp h0 a ha
          simp [this]
        simp [h, hfil]
    have hdel : (cleanup_old_trades s cutoff).2.deleted_trades =
        (s.trades.filter (oldSettled cutoff)).length := by
      unfold cleanup_old_trades
      by_cases h : 0 < (s.trades.filter (oldSettled cutoff)).length <;> simp [h]
    rw [hdel, hrem]
    omega
  · rw [cleanup_old_trades_trades_eq]
    unfold cleanup_old_trades
    by_cases h : 0 < (s.trades.filter (oldSettled cutoff)).length
    · simp [h]
    · have h0 : s.trades.filter (oldSettled cutoff) = [] :=
        List.length_eq_zero.mp (by omega)
      have hfil : s.trades.filter (fun t => !oldSettled cutoff t) = s.trades := by
        refine List.filter_eq_self.mpr ?_
        intro a ha
        have := List.filter_eq_nil_iff.mp h0 a ha
        simp [this]
      simp [h, hfil]
  · unfold cleanup_old_trades
    by_cases h : 0 < (s.trades.filter (oldSettled cutoff)).length <;> simp [h]

/-- Witness for C7: at a database holding one unsettled trade older than
the cutoff, that trade is kept by cleanup regardless of its age. -/
theorem cleanup_old_trades_exact_witness :
    newTradeRow "2020-01-01T00:00:00" sampleTrade [] ∈
      (cleanup_old_trades
        { wallets := [], trades := [newTradeRow "2020-01-01T00:00:00" sampleTrade []] }
        "2024-06-01T00:00:00").1.trades :=
  (cleanup_old_trades_exact
      { wallets := [], trades := [newTradeRow "2020-01-01T00:00:00" sampleTrade []] }
      "2024-06-01T00:00:00").2.1
    (newTradeRow "2020-01-01T00:00:00" sampleTrade []) (by simp) rfl

/-! ## C8: the whale threshold is inclusive -/

/-- Computation shape of `_process_trade`. -/
theorem process_trade_eq (threshold : ℚ) (c : ℕ) (size price : Option JsonNum) :
    process_trade threshold c size price =
      if threshold ≤ (size.getD (JsonNum.num 0)).toVal * (price.getD (JsonNum.num 0)).toVal
      then (true, c + 1) else (false, c) := rfl

/-- C8: a whale-trade event is emitted and the whale counter incremented
exactly when `size * price` (after coercing numeric strings and defaulting
missing fields to 0) is at least the configured threshold; a trade whose
value equals the threshold is emitted, one whose value is one cent below
is not. -/
theorem whale_threshold_inclusive (threshold : ℚ) (c : ℕ) (size price : Option JsonNum) :
    ((process_trade threshold c size price).1 = true ↔
      threshold ≤ (size.getD (JsonNum.num 0)).toVal * (price.getD (JsonNum.num 0)).toVal) ∧
    ((size.getD (JsonNum.num 0)).toVal * (price.getD (JsonNum.num 0)).toVal = threshold →
      (process_trade threshold c size price).1 = true) ∧
    ((size.getD (JsonNum.num 0)).toVal * (price.getD (JsonNum.num 0)).toVal =
        threshold - 1/100 →
      (process_trade threshold c size price).1 = false) ∧
    (process_trade threshold c size price).2 =
      (if (process_trade threshold c size price).1 then c + 1 else c) := by
  rw [process_trade_eq]
  by_cases h : threshold ≤
      (size.getD (JsonNum.num 0)).toVal * (price.getD (JsonNum.num 0)).toVal
  · refine ⟨by simp [h], fun _ => by simp [h], ?_, by simp [h]⟩
    intro heq
    rw [heq] at h
    linarith
  · refine ⟨by simp [h], ?_, fun _ => by simp [h], by simp [h]⟩
    intro heq
    rw [heq] at h
    exact absurd le_rfl h

/-- Witness for C8: a trade of 10000 shares at price 1 exactly meets the
default threshold of 10000 and is emitted. -/
theorem whale_threshold_inclusive_witness :
    (process_trade 10000 0 (some (JsonNum.num 10000)) (some (JsonNum.num 1))).1 = true :=
  (whale_threshold_inclusive 10000 0 (some (JsonNum.num 10000))
      (some (JsonNum.num 1))).2.1 (by simp [JsonNum.toVal])

/-! ## C9: reconnection backoff -/

/-- The backoff delay never exceeds the 60-second cap. -/
theorem reconnectDelayAfter_le_cap (n : ℕ) : reconnectDelayAfter n ≤ 60 := by
  induction n with
  | zero => decide
  | succ n ih =>
      show min (reconnectDelayAfter n * 2) RECONNECT_DELAY_MAX ≤ 60
      exact Nat.min_le_right _ _

/-- From the fifth attempt on the delay sits at the cap. -/
theorem reconnectDelayAfter_cap_from_four (k : ℕ) : reconnectDelayAfter (k + 4) = 60 := by
  induction k with
  | zero => decide
  | succ k ih =>
      show nextReconnectDelay (reconnectDelayAfter (k + 4)) = 60
      rw [ih]
      decide

/-- C9: the reconnection backoff starts at the 5-second base, doubles
(with a 60-second cap) after each consecutive failed attempt — giving the
wait sequence 5, 10, 20, 40, 60, 60, 60, … — is monotone and capped at 60,
and resets to the 5-second base immediately after a successful
connection. -/
theorem reconnect_backoff_sequence (n : ℕ) :
    reconnectDelayAfter 0 = 5 ∧
    reconnectDelayAfter 1 = 10 ∧
    reconnectDelayAfter 2 = 20 ∧
    reconnectDelayAfter 3 = 40 ∧
    reconnectDelayAfter 4 = 60 ∧
    reconnectDelayAfter (n + 4) = 60 ∧
    reconnectDelayAfter (n + 1) = min (2 * reconnectDelayAfter n) 60 ∧
    reconnectDelayAfter n ≤ reconnectDelayAfter (n + 1) ∧
    reconnectDelayAfter n ≤ 60 ∧
    delayAfterSuccess = RECONNECT_DELAY_BASE ∧ RECONNECT_DELAY_BASE = 5 := by
  refine ⟨by decide, by decide, by decide, by decide, by decide,
    reconnectDelayAfter_cap_from_four n, ?_, ?_, reconnectDelayAfter_le_cap n,
    rfl, rfl⟩
  · show nextReconnectDelay (reconnectDelayAfter n) = _
    unfold nextReconnectDelay RECONNECT_DELAY_MAX
    rw [Nat.mul_comm]
  · show reconnectDelayAfter n ≤ nextReconnectDelay (reconnectDelayAfter n)
    unfold nextReconnectDelay RECONNECT_DELAY_MAX
    refine Nat.le_min.mpr ⟨by omega, reconnectDelayAfter_le_cap n⟩

/-! ## C10: resolution extraction fallback chain -/

/-- C10 counterexample: the claim quantifies over every market metadata
record, but the code first requires the market to be flagged closed or
resolved. An open market that nonetheless carries an explicit outcome field
yields no resolution from the code, while the claimed fallback chain would
return that outcome. -/
theorem extract_resolution_requires_closed :
    extract_resolution
        { closed := false, resolved := false, outcome := some "Yes",
          outcomes := [], outcomePrices := [], resolvedOutcome := none } = none ∧
    resolutionChainSpec
        { closed := false, resolved := false, outcome := some "Yes",
          outcomes := [], outcomePrices := [], resolvedOutcome := none } =
      some "Yes" :=
  ⟨rfl, rfl⟩

/-- C10 (amended): for a market flagged closed or resolved, resolution
extraction applies the spec's fallback chain in order with the first match
winning — explicit outcome field, then the ≥ 0.99 price-vector scan, then
the alternate resolved-outcome field, and `none` (still open, retried
later, never guessed) when none apply; a market not flagged closed or
resolved always yields `none` regardless of its fields. -/
theorem extract_resolution_fallback_chain (m : Market) :
    ((m.closed || m.resolved) = true →
      extract_resolution m = resolutionChainSpec m) ∧
    ((m.closed || m.resolved) = false → extract_resolution m = none) := by
  constructor
  · intro h
    unfold extract_resolution resolutionChainSpec
    rw [h]
    rfl
  · intro h
    unfold extract_resolution
    rw [h]
    rfl

/-- Witness for C10: a closed market with an explicit outcome field follows
the chain (and its first step wins). -/
theorem extract_resolution_fallback_chain_witness :
    extract_resolution
        { closed := true, resolved := false, outcome := some "No",
          outcomes := ["Yes", "No"], outcomePrices := [some 0, some 1],
          resolvedOutcome := none } =
      resolutionChainSpec
        { closed := true, resolved := false, outcome := some "No",
          outcomes := ["Yes", "No"], outcomePrices := [some 0, some 1],
          resolvedOutcome := none } :=
  (extract_resolution_fallback_chain _).1 rfl

/-! ## C5 machinery: the net effect of settlement on wallet aggregates -/

/-- Settling an empty batch leaves a wallet row unchanged. -/
theorem bumpWallet_nil (out : String) (w : WalletRow) : bumpWallet out [] w = w := by
  cases w
  simp [bumpWallet, winsDelta, lossesDelta, pnlDelta]

/-- Settling one trade and then a batch equals settling the extended
batch. -/
theorem bumpWallet_cons (out : String) (t : TradeRow) (l : List TradeRow) (w : WalletRow) :
    bumpWallet out l (settleOneWallet out t w) = bumpWallet out (t :: l) w := by
  by_cases h : (w.address == t.wallet_address) = true
  · have heq : w.address = t.wallet_address := by simpa using h
    by_cases hwon : wonOf out t = true
    · simp only [bumpWallet, settleOneWallet, winsDelta, lossesDelta, pnlDelta, h, if_pos,
        List.filter_cons, heq, hwon]
      simp [← heq, List.sum_cons]
      exact ⟨by omega, by ring⟩
    · have hwon' : wonOf out t = false := by simpa using hwon
      simp only [bumpWallet, settleOneWallet, winsDelta, lossesDelta, pnlDelta, h, if_pos,
        List.filter_cons, heq, hwon']
      simp [← heq, List.sum_cons]
      exact ⟨by omega, by ring⟩
  · have hne : (t.wallet_address == w.address) = false := by
      simp only [beq_eq_false_iff_ne, ne_eq]
      intro e
      exact h (by simp [e])
    simp only [bumpWallet, settleOneWallet, winsDelta, lossesDelta, pnlDelta, h, if_neg,
      List.filter_cons]
    simp [hne]

/-- The source's per-trade wallet-update loop equals one map of the batch's
net effect over the wallets table. -/
theorem foldl_settle_wallets (out : String) (l : List TradeRow) (ws : List WalletRow) :
    l.foldl (fun ws t => ws.map (settleOneWallet out t)) ws = ws.map (bumpWallet out l) := by
  induction l generalizing ws with
  | nil =>
      show ws = ws.map (bumpWallet out [])
      exact ((List.map_congr_left fun w _ => bumpWallet_nil out w).trans
        (List.map_id ws)).symm
  | cons t l ih =>
      simp only [List.foldl_cons]
      rw [ih, List.map_map]
      exact List.map_congr_left fun w _ => bumpWallet_cons out t l w

/-- Splitting a count over a pointwise decomposition of indicators. -/
theorem countP_split {x : Type} (l : List x) (g q r : x → Bool)
    (h : ∀ y ∈ l, (if g y then (1 : ℕ) else 0) =
      (if q y then 1 else 0) + (if r y then 1 else 0)) :
    l.countP g = l.countP q + l.countP r := by
  induction l with
  | nil => rfl
  | cons y l ih =>
      have hy := h y (List.mem_cons_self y l)
      have ih2 := ih fun z hz => h z (List.mem_cons_of_mem y hz)
      rw [List.countP_cons, List.countP_cons, List.countP_cons, ih2]
      by_cases hg : g y = true <;> by_cases hq : q y = true <;>
        by_cases hr : r y = true <;> simp [hg, hq, hr] at hy ⊢ <;> omega

/-- A sum over a filtered list as a sum of guarded values over the whole
list. -/
theorem sum_map_filter_eq {x : Type} (g : x → Bool) (v : x → ℚ) (l : List x) :
    ((l.filter g).map v).sum = (l.map fun t => if g t then v t else 0).sum := by
  induction l with
  | nil => rfl
  | cons y l ih =>
      rw [List.filter_cons]
      by_cases h : g y = true
      · simp [h, ih]
      · have h2 : g y = false := by simpa using h
        simp [h2, ih]

/-- Wins plus losses in a settled batch equal the number of the batch's
trades for the address. -/
theorem winsDelta_add_lossesDelta (out : String) (l : List TradeRow) (a : String) :
    winsDelta out l a + lossesDelta out l a =
      (l.filter fun t => t.wallet_address == a).length := by
  unfold winsDelta lossesDelta
  rw [← List.countP_eq_length_filter, ← List.countP_eq_length_filter,
    ← List.countP_eq_length_filter]
  refine (countP_split l _ _ _ ?_).symm
  intro t _
  by_cases ha : (t.wallet_address == a) = true <;>
    by_cases hw : wonOf out t = true <;> simp [ha, hw]

/-- Settling the unsettled trades of a market adds exactly those trades to
the address's settled set, by count. -/
theorem settledFor_length_after_settle (cid out a : String) (l : List TradeRow) :
    (settledFor (l.map fun t => if unsettledFor cid t then settleRow out t else t) a).length =
      (settledFor l a).length +
        ((l.filter (unsettledFor cid)).filter fun t => t.wallet_address == a).length := by
  unfold settledFor
  rw [List.filter_filter, ← List.countP_eq_length_filter, ← List.countP_eq_length_filter,
    ← List.countP_eq_length_filter, List.countP_map]
  refine countP_split l _ _ _ ?_
  intro t _
  by_cases hp : unsettledFor cid t = true
  · obtain ⟨hcid, hwnone⟩ : t.condition_id = cid ∧ t.trade_won = none := by
      simpa [unsettledFor] using hp
    by_cases ha : (t.wallet_address == a) = true <;>
      simp [Function.comp, hp, settleRow, hwnone, ha]
  · have hp2 : unsettledFor cid t = false := by simpa using hp
    simp [Function.comp, hp2]

/-- Settling the unsettled trades of a market adds exactly those trades'
rounded P&L to the address's settled P&L sum. -/
theorem settledPnlSum_after_settle (cid out a : String) (l : List TradeRow) :
    settledPnlSum (l.map fun t => if unsettledFor cid t then settleRow out t else t) a =
      settledPnlSum l a + pnlDelta out (l.filter (unsettledFor cid)) a := by
  unfold settledPnlSum settledFor pnlDelta
  rw [List.filter_filter, sum_map_filter_eq, sum_map_filter_eq, sum_map_filter_eq,
    List.map_map, ← List.sum_map_add]
  refine congrArg List.sum (List.map_congr_left ?_)
  intro t _
  by_cases hp : unsettledFor cid t = true
  · obtain ⟨hcid, hwnone⟩ : t.condition_id = cid ∧ t.trade_won = none := by
      simpa [unsettledFor] using hp
    by_cases ha : (t.wallet_address == a) = true <;>
      simp [Function.comp, hp, settleRow, hwnone, ha]
  · have hp2 : unsettledFor cid t = false := by simpa using hp
    simp [Function.comp, hp2]

/-- Appending an unsettled trade row does not change any settled set. -/
theorem settledFor_append_unsettled (l : List TradeRow) (t : TradeRow) (a : String)
    (h : t.trade_won = none) : settledFor (l ++ [t]) a = settledFor l a := by
  simp [settledFor, List.filter_append, h]

/-- Under the FOREIGN KEY constraint, an address with no wallet row has no
settled trades. -/
theorem settledFor_of_no_wallet (s : DB) (a : String) (hFK : fkWellFormed s)
    (hnone : findWallet s.wallets a = none) : settledFor s.trades a = [] := by
  refine List.filter_eq_nil_iff.mpr ?_
  intro t ht
  obtain ⟨w, hw, haddr⟩ := hFK t ht
  have h0 : List.find? (fun w : WalletRow => w.address == a) s.wallets = none := hnone
  have hne : ¬ (w.address == a) = true := List.find?_eq_none.mp h0 w hw
  have hne2 : w.address ≠ a := by simpa using hne
  simp only [Bool.and_eq_true, beq_iff_eq, not_and]
  intro he
  exact absurd (haddr.trans he) hne2

/-- `record_whale_trade` preserves the wallet-aggregate invariant and the
FOREIGN KEY constraint. -/
theorem record_whale_trade_preserves (s : DB) (tr : TradeInput) (nowIso : String)
    (hInv : walletAggInvariant s) (hFK : fkWellFormed s) :
    walletAggInvariant (record_whale_trade s tr nowIso) ∧
      fkWellFormed (record_whale_trade s tr nowIso) := by
  have htr : (record_whale_trade s tr nowIso).trades =
      s.trades ++ [newTradeRow nowIso tr s.trades] := by
    show (insertTradeRow nowIso tr (upsertWalletStats nowIso tr s)).trades = _
    cases h : findWallet s.wallets tr.wallet_address <;>
      simp [insertTradeRow, upsertWalletStats, h]
  have hset : ∀ b : String,
      settledFor (record_whale_trade s tr nowIso).trades b = settledFor s.trades b := by
    intro b
    rw [htr]
    exact settledFor_append_unsettled _ _ _ rfl
  have hset2 : ∀ b : String,
      settledPnlSum (record_whale_trade s tr nowIso).trades b = settledPnlSum s.trades b := by
    intro b
    unfold settledPnlSum
    rw [hset b]
  constructor
  · intro w1 hw1
    cases hfind : findWallet s.wallets tr.wallet_address with
    | some w0 =>
        have hwals : (record_whale_trade s tr nowIso).wallets = s.wallets.map fun w =>
            if w.address == tr.wallet_address then
              { w with total_whale_trades := w.total_whale_trades + 1,
                       total_whale_volume := w.total_whale_volume + tr.size * tr.price }
            else w := by
          show (insertTradeRow nowIso tr (upsertWalletStats nowIso tr s)).wallets = _
          simp [insertTradeRow, upsertWalletStats, hfind]
        rw [hwals] at hw1
        obtain ⟨w, hw, himg⟩ := List.mem_map.mp hw1
        have hf : w1.wins = w.wins ∧ w1.losses = w.losses ∧
            w1.realized_pnl = w.realized_pnl ∧ w1.address = w.address := by
          rw [← himg]
          by_cases h : (w.address == tr.wallet_address) = true <;> simp [h]
        obtain ⟨hfw, hfl, hfp, hfa⟩ := hf
        obtain ⟨hcnt, hsum⟩ := hInv w hw
        constructor
        · rw [hfw, hfl, hfa, hset]
          exact hcnt
        · rw [hfp, hfa, hset2]
          exact hsum
    | none =>
        have hwals : (record_whale_trade s tr nowIso).wallets = s.wallets ++
            [{ address := tr.wallet_address, first_seen_at := nowIso,
               total_whale_trades := 1, total_whale_volume := tr.size * tr.price,
               wins := 0, losses := 0, realized_pnl := 0,
               leaderboard_rank := none, leaderboard_pnl := none,
               leaderboard_volume := none, api_trade_count := none,
               last_api_fetch := none }] := by
          show (insertTradeRow nowIso tr (upsertWalletStats nowIso tr s)).wallets = _
          simp [insertTradeRow, upsertWalletStats, hfind]
        rw [hwals] at hw1
        rcases List.mem_append.mp hw1 with hold | hnew
        · obtain ⟨hcnt, hsum⟩ := hInv w1 hold
          rw [hset, hset2]
          exact ⟨hcnt, hsum⟩
        · have hw1eq := List.mem_singleton.mp hnew
          subst hw1eq
          have hempty : settledFor s.trades tr.wallet_address = [] :=
            settledFor_of_no_wallet s tr.wallet_address hFK hfind
          constructor
          · simp
          · rw [hset2]
            simp [settledPnlSum, hempty]
  · intro t ht
    rw [htr] at ht
    cases hfind : findWallet s.wallets tr.wallet_address with
    | some w0 =>
        have hwals : (record_whale_trade s tr nowIso).wallets = s.wallets.map fun w =>
            if w.address == tr.wallet_address then
              { w with total_whale_trades := w.total_whale_trades + 1,
                       total_whale_volume := w.total_whale_volume + tr.size * tr.price }
            else w := by
          show (insertTradeRow nowIso tr (upsertWalletStats nowIso tr s)).wallets = _
          simp [insertTradeRow, upsertWalletStats, hfind]
        have haddr : ∀ w : WalletRow,
            ((if w.address == tr.wallet_address then
                { w with total_whale_trades := w.total_whale_trades + 1,
                         total_whale_volume := w.total_whale_volume + tr.size * tr.price }
              else w) : WalletRow).address = w.address := by
          intro w
          by_cases h : (w.address == tr.wallet_address) = true <;> simp [h]
        rcases List.mem_append.mp ht with hold | hnew
        · obtain ⟨w, hw, he⟩ := hFK t hold
          have hmem := List.mem_map_of_mem (fun w : WalletRow =>
            if w.address == tr.wallet_address then
              { w with total_whale_trades := w.total_whale_trades + 1,
                       total_whale_volume := w.total_whale_volume + tr.size * tr.price }
            else w) hw
          rw [← hwals] at hmem
          exact ⟨_, hmem, by rw [haddr w]; exact he⟩
        · have hteq := List.mem_singleton.mp hnew
          subst hteq
          have h2 : List.find? (fun v : WalletRow => v.address == tr.wallet_address)
              s.wallets = some w0 := hfind
          have hw0 : w0 ∈ s.wallets := List.mem_of_find?_eq_some h2
          have hw0a : w0.address = tr.wallet_address := by
            simpa using List.find?_some h2
          have hmem := List.mem_map_of_mem (fun w : WalletRow =>
            if w.address == tr.wallet_address then
              { w with total_whale_trades := w.total_whale_trades + 1,
                       total_whale_volume := w.total_whale_volume + tr.size * tr.price }
            else w) hw0
          rw [← hwals] at hmem
          exact ⟨_, hmem, by rw [haddr w0, hw0a]; rfl⟩
    | none =>
        have hwals : (record_whale_trade s tr nowIso).wallets = s.wallets ++
            [{ address := tr.wallet_address, first_seen_at := nowIso,
               total_whale_trades := 1, total_whale_volume := tr.size * tr.price,
               wins := 0, losses := 0, realized_pnl := 0,
               leaderboard_rank := none, leaderboard_pnl := none,
               leaderboard_volume := none, api_trade_count := none,
               last_api_fetch := none }] := by
          show (insertTradeRow nowIso tr (upsertWalletStats nowIso tr s)).wallets = _
          simp [insertTradeRow, upsertWalletStats, hfind]
        rcases List.mem_append.mp ht with hold | hnew
        · obtain ⟨w, hw, he⟩ := hFK t hold
          have hmem : w ∈ (record_whale_trade s tr nowIso).wallets := by
            rw [hwals]
            exact List.mem_append_left _ hw
          exact ⟨w, hmem, he⟩
        · have hteq := List.mem_singleton.mp hnew
          subst hteq
          refine ⟨{ emptyWallet tr.wallet_address nowIso with
              total_whale_trades := 1,
              total_whale_volume := tr.size * tr.price }, ?_, rfl⟩
          rw [hwals]
          exact List.mem_append_right _ (List.mem_singleton.mpr rfl)

/-- `resolve_trades` preserves the wallet-aggregate invariant and the
FOREIGN KEY constraint: each wallet row is bumped by exactly the wins,
losses and rounded P&L of its own newly settled trades, which are exactly
the trades added to its settled set. -/
theorem resolve_trades_preserves (s : DB) (cid out : String)
    (hInv : walletAggInvariant s) (hFK : fkWellFormed s) :
    walletAggInvariant (resolve_trades s cid out).1 ∧
      fkWellFormed (resolve_trades s cid out).1 := by
  have hwals : (resolve_trades s cid out).1.wallets =
      s.wallets.map (bumpWallet out (s.trades.filter (unsettledFor cid))) :=
    foldl_settle_wallets out (s.trades.filter (unsettledFor cid)) s.wallets
  have htr : (resolve_trades s cid out).1.trades =
      s.trades.map fun t => if unsettledFor cid t then settleRow out t else t := rfl
  constructor
  · intro w1 hw1
    rw [hwals] at hw1
    obtain ⟨w, hw, himg⟩ := List.mem_map.mp hw1
    obtain ⟨hcnt, hsum⟩ := hInv w hw
    have hfa : w1.address = w.address := by rw [← himg]; rfl
    have hfw : w1.wins = w.wins + winsDelta out (s.trades.filter (unsettledFor cid)) w.address := by
      rw [← himg]; rfl
    have hfl : w1.losses =
        w.losses + lossesDelta out (s.trades.filter (unsettledFor cid)) w.address := by
      rw [← himg]; rfl
    have hfp : w1.realized_pnl =
        w.realized_pnl + pnlDelta out (s.trades.filter (unsettledFor cid)) w.address := by
      rw [← himg]; rfl
    constructor
    · rw [hfw, hfl, hfa, htr, settledFor_length_after_settle cid out w.address s.trades]
      have hc := winsDelta_add_lossesDelta out (s.trades.filter (unsettledFor cid)) w.address
      omega
    · rw [hfp, hfa, htr, settledPnlSum_after_settle cid out w.address s.trades, hsum]
  · intro t1 ht1
    rw [htr] at ht1
    obtain ⟨t, ht, himg⟩ := List.mem_map.mp ht1
    obtain ⟨w, hw, he⟩ := hFK t ht
    have hmem := List.mem_map_of_mem
      (bumpWallet out (s.trades.filter (unsettledFor cid))) hw
    rw [← hwals] at hmem
    refine ⟨_, hmem, ?_⟩
    show (bumpWallet out _ w).address = t1.wallet_address
    have ht1a : t1.wallet_address = t.wallet_address := by
      rw [← himg]
      by_cases h : unsettledFor cid t = true <;> simp [h, settleRow]
    rw [ht1a]
    exact he

/-- `upsert_wallet` preserves the wallet-aggregate invariant and the
FOREIGN KEY constraint: it only touches the cached reputation columns and
creates wallets with zero aggregates (for an address that, by the FOREIGN
KEY constraint, has no trades yet). -/
theorem upsert_wallet_preserves (s : DB) (a nowIso : String) (now : ℚ)
    (api : Option ApiData)
    (hInv : walletAggInvariant s) (hFK : fkWellFormed s) :
    walletAggInvariant (upsert_wallet s a nowIso now api) ∧
      fkWellFormed (upsert_wallet s a nowIso now api) := by
  have htrades : (upsert_wallet s a nowIso now api).trades = s.trades := by
    unfold upsert_wallet
    cases hfind : findWallet s.wallets a <;> cases api <;> rfl
  have hws1 : ∀ w1, w1 ∈ (match findWallet s.wallets a with
      | some _ => s.wallets
      | none => s.wallets ++ [emptyWallet a nowIso]) →
      w1 ∈ s.wallets ∨ (w1 = emptyWallet a nowIso ∧ findWallet s.wallets a = none) := by
    intro w1 h
    cases hfind : findWallet s.wallets a with
    | some w0 =>
        rw [hfind] at h
        exact Or.inl h
    | none =>
        rw [hfind] at h
        rcases List.mem_append.mp h with hold | hnew
        · exact Or.inl hold
        · exact Or.inr ⟨List.mem_singleton.mp hnew, rfl⟩
  have hws1' : ∀ w1, w1 ∈ s.wallets → w1 ∈ (match findWallet s.wallets a with
      | some _ => s.wallets
      | none => s.wallets ++ [emptyWallet a nowIso]) := by
    intro w1 h
    cases hfind : findWallet s.wallets a with
    | some w0 => exact h
    | none => exact List.mem_append_left _ h
  constructor
  · intro w1 hw1
    rw [show (upsert_wallet s a nowIso now api).wallets = _ from rfl] at hw1
    cases hapi : api with
    | some apd =>
        subst hapi
        obtain ⟨w2, hw2, himg⟩ := List.mem_map.mp hw1
        have hf : w1.wins = w2.wins ∧ w1.losses = w2.losses ∧
            w1.realized_pnl = w2.realized_pnl ∧ w1.address = w2.address := by
          rw [← himg]
          by_cases h : (w2.address == a) = true <;> simp [h]
        obtain ⟨hfw, hfl, hfp, hfa⟩ := hf
        rw [hfw, hfl, hfp, hfa, htrades]
        rcases hws1 w2 hw2 with hold | ⟨hempty, hnone⟩
        · exact hInv w2 hold
        · subst hempty
          have h0 : settledFor s.trades a = [] :=
            settledFor_of_no_wallet s a hFK hnone
          constructor
          · simp [emptyWallet, h0]
          · simp [settledPnlSum, emptyWallet, h0]
    | none =>
        subst hapi
        rw [htrades]
        rcases hws1 w1 hw1 with hold | ⟨hempty, hnone⟩
        · exact hInv w1 hold
        · subst hempty
          have h0 : settledFor s.trades a = [] :=
            settledFor_of_no_wallet s a hFK hnone
          constructor
          · simp [emptyWallet, h0]
          · simp [settledPnlSum, emptyWallet, h0]
  · intro t ht
    rw [htrades] at ht
    obtain ⟨w, hw, he⟩ := hFK t ht
    have hw1 := hws1' w hw
    cases hapi : api with
    | some apd =>
        subst hapi
        have hmem := List.mem_map_of_mem (fun w : WalletRow =>
          if w.address == a then
            { w with leaderboard_rank := apd.getRank,
                     leaderboard_pnl := apd.getPnl,
                     leaderboard_volume := apd.getVolume,
                     api_trade_count := apd.trade_count,
                     last_api_fetch := some now }
          else w) hw1
        refine ⟨_, hmem, ?_⟩
        show ((if w.address == a then
            { w with leaderboard_rank := apd.getRank,
                     leaderboard_pnl := apd.getPnl,
                     leaderboard_volume := apd.getVolume,
                     api_trade_count := apd.trade_count,
                     last_api_fetch := some now }
          else w) : WalletRow).address = t.wallet_address
        by_cases h : (w.address == a) = true
        · rw [if_pos h]
          exact he
        · rw [if_neg h]
          exact he
    | none =>
        subst hapi
        exact ⟨w, hw1, he⟩

/-- The wallets table is untouched by retention cleanup. -/
theorem cleanup_old_trades_wallets_eq (s : DB) (cutoff : String) :
    (cleanup_old_trades s cutoff).1.wallets = s.wallets := by
  unfold cleanup_old_trades
  by_cases h : 0 < (s.trades.filter (oldSettled cutoff)).length <;> simp [h]

/-- C5 counterexample: the claim includes cleanup among the operations
preserving the wallet-aggregate invariant, but `cleanup_old_trades` deletes
old settled trades while leaving wallet aggregates untouched. In a state
satisfying the invariant (and the FOREIGN KEY constraint) with one wallet
whose single settled trade is older than the cutoff, cleanup removes the
trade, after which `wins + losses = 1` exceeds the zero remaining settled
trades: the invariant fails. -/
theorem cleanup_breaks_wallet_invariant :
    walletAggInvariant dbBeforeCleanup ∧ fkWellFormed dbBeforeCleanup ∧
    ¬ walletAggInvariant (cleanup_old_trades dbBeforeCleanup "2025-01-01T00:00:00").1 := by
  refine ⟨?_, ?_, ?_⟩
  · intro w hw
    have hweq : w = walletA := by simpa [dbBeforeCleanup] using hw
    subst hweq
    constructor
    · simp [settledFor, dbBeforeCleanup, walletA, settledRow0]
    · simp [settledPnlSum, settledFor, dbBeforeCleanup, walletA, settledRow0]
  · intro t ht
    have hteq : t = settledRow0 := by simpa [dbBeforeCleanup] using ht
    subst hteq
    exact ⟨walletA, by simp [dbBeforeCleanup], rfl⟩
  · intro h
    have hwA : walletA ∈
        (cleanup_old_trades dbBeforeCleanup "2025-01-01T00:00:00").1.wallets := by
      rw [cleanup_old_trades_wallets_eq]
      simp [dbBeforeCleanup]
    obtain ⟨h1, h2⟩ := h walletA hwA
    have hold : oldSettled "2025-01-01T00:00:00" settledRow0 = true := by decide
    have htr : (cleanup_old_trades dbBeforeCleanup "2025-01-01T00:00:00").1.trades = [] := by
      rw [cleanup_old_trades_trades_eq]
      simp [dbBeforeCleanup, hold]
    rw [htr] at h1
    simp [settledFor, walletA] at h1

/-- C5 (amended): the wallet-aggregate invariant — for every wallet,
`wins + losses` at most the number of its settled trades and
`realized_pnl` equal to the sum of their `pnl` — is preserved, together
with the schema's FOREIGN KEY constraint, by `record_whale_trade`,
`resolve_trades` and `upsert_wallet`; it is not preserved by cleanup,
which keeps wallet aggregates while deleting old settled trades (see the
counterexample). -/
theorem wallet_invariant_preserved (s : DB) (tr : TradeInput)
    (nowIso nowIso2 cid out a : String) (now : ℚ) (api : Option ApiData)
    (hInv : walletAggInvariant s) (hFK : fkWellFormed s) :
    (walletAggInvariant (record_whale_trade s tr nowIso) ∧
      fkWellFormed (record_whale_trade s tr nowIso)) ∧
    (walletAggInvariant (resolve_trades s cid out).1 ∧
      fkWellFormed (resolve_trades s cid out).1) ∧
    (walletAggInvariant (upsert_wallet s a nowIso2 now api) ∧
      fkWellFormed (upsert_wallet s a nowIso2 now api)) :=
  ⟨record_whale_trade_preserves s tr nowIso hInv hFK,
   resolve_trades_preserves s cid out hInv hFK,
   upsert_wallet_preserves s a nowIso2 now api hInv hFK⟩

/-- Witness for C5: the invariant hypotheses hold at the concrete one
wallet, one settled trade state, and are preserved through a concrete
`record_whale_trade`. -/
theorem wallet_invariant_preserved_witness :
    walletAggInvariant (record_whale_trade dbBeforeCleanup sampleTrade "t0") ∧
      fkWellFormed (record_whale_trade dbBeforeCleanup sampleTrade "t0") :=
  (wallet_invariant_preserved dbBeforeCleanup sampleTrade "t0" "t0" "cond1" "Yes"
      "0xabc" 0 none
      (by
        intro w hw
        have hweq : w = walletA := by simpa [dbBeforeCleanup] using hw
        subst hweq
        refine ⟨by simp [settledFor, dbBeforeCleanup, walletA, settledRow0], ?_⟩
        simp [settledPnlSum, settledFor, dbBeforeCleanup, walletA, settledRow0])
      (by
        intro t ht
        have hteq : t = settledRow0 := by simpa [dbBeforeCleanup] using ht
        subst hteq
        exact ⟨walletA, by simp [dbBeforeCleanup], rfl⟩)).1

/-! ## C6: enrichment partial-failure policy -/

/-- On the stale path, `enrich` persists through `upsert_wallet` exactly
the `api_data.get(...)` values over the prior row, stamping the fetch
time. -/
theorem enrich_stale_persists (s : DB) (a : String) (now : ℚ) (nowIso : String)
    (tradesResp : Option (List Unit)) (lbResp : Option LBEntry) (w : WalletRow)
    (hw : findWallet s.wallets a = some w)
    (hstale : api_data_fresh w now = false) :
    findWallet (enrich s a now nowIso tradesResp lbResp).1.wallets a =
      some { w with
        leaderboard_rank := (buildApiData tradesResp lbResp).getRank,
        leaderboard_pnl := (buildApiData tradesResp lbResp).getPnl,
        leaderboard_volume := (buildApiData tradesResp lbResp).getVolume,
        api_trade_count := (buildApiData tradesResp lbResp).trade_count,
        last_api_fetch := some now } := by
  have henr : (enrich s a now nowIso tradesResp lbResp).1 =
      upsert_wallet s a nowIso now (some (buildApiData tradesResp lbResp)) := by
    unfold enrich
    rw [hw]
    simp [hstale]
  rw [henr]
  unfold upsert_wallet
  rw [hw]
  have haddr : ∀ v : WalletRow, ((if v.address == a then
      { v with leaderboard_rank := (buildApiData tradesResp lbResp).getRank,
               leaderboard_pnl := (buildApiData tradesResp lbResp).getPnl,
               leaderboard_volume := (buildApiData tradesResp lbResp).getVolume,
               api_trade_count := (buildApiData tradesResp lbResp).trade_count,
               last_api_fetch := some now }
    else v) : WalletRow).address = v.address := by
    intro v
    by_cases h : (v.address == a) = true <;> simp [h]
  show findWallet (s.wallets.map _) a = _
  rw [findWallet_map _ _ haddr a, hw]
  have h2 : List.find? (fun v : WalletRow => v.address == a) s.wallets = some w := hw
  have hp : (w.address == a) = true := by simpa using List.find?_some h2
  have heq : w.address = a := by simpa using hp
  simp [heq]

/-- C6 (amended): when the cache is stale, a failed trade-history lookup
(timeout, 429 or error) leaves the persisted `api_trade_count` NULL
(unknown — not zero and not the previous value); a failed leaderboard
lookup omits the leaderboard keys from the returned in-memory merge, whose
`leaderboard_rank`, `leaderboard_pnl` and `leaderboard_volume` entries keep
the previous cached values — but the persisted wallet columns are
nonetheless overwritten with NULL by `upsert_wallet`, not kept. -/
theorem enrich_partial_failure (s : DB) (a : String) (now : ℚ) (nowIso : String)
    (tradesResp : Option (List Unit)) (lbResp : Option LBEntry) (w : WalletRow)
    (hw : findWallet s.wallets a = some w)
    (hstale : api_data_fresh w now = false) :
    (tradesResp = none →
      ∀ w1, findWallet (enrich s a now nowIso tradesResp lbResp).1.wallets a = some w1 →
        w1.api_trade_count = none) ∧
    (lbResp = none →
      (enrich s a now nowIso tradesResp lbResp).2 = EnrichReturn.merged
        { api_trade_count := w.api_trade_count,
          leaderboard_rank := w.leaderboard_rank,
          leaderboard_pnl := w.leaderboard_pnl,
          leaderboard_volume := w.leaderboard_volume,
          trade_count_key := tradesResp.map List.length,
          api_data_fresh := true }) ∧
    (lbResp = none →
      ∀ w1, findWallet (enrich s a now nowIso tradesResp lbResp).1.wallets a = some w1 →
        w1.leaderboard_rank = none ∧ w1.leaderboard_pnl = none ∧
          w1.leaderboard_volume = none ∧ w1.last_api_fetch = some now) := by
  refine ⟨?_, ?_, ?_⟩
  · intro htr w1 hw1
    rw [enrich_stale_persists s a now nowIso tradesResp lbResp w hw hstale] at hw1
    have hw1eq := Option.some_injective _ hw1.symm
    subst hw1eq
    subst htr
    rfl
  · intro hlb
    subst hlb
    unfold enrich
    rw [hw]
    simp [hstale, buildApiData, ApiData.getRank]
  · intro hlb w1 hw1
    rw [enrich_stale_persists s a now nowIso tradesResp lbResp w hw hstale] at hw1
    have hw1eq := Option.some_injective _ hw1.symm
    subst hw1eq
    subst hlb
    exact ⟨rfl, rfl, rfl, rfl⟩

/-- C6 counterexample: the claim says the cached leaderboard values are
kept when the leaderboard lookup fails, but the persisted row is
overwritten with NULL. Starting from a stale cached wallet whose rank is 5,
pnl 7 and volume 9, an `enrich` whose leaderboard fetch failed (and whose
trade fetch returned one trade) persists NULL in all three columns. -/
theorem enrich_overwrites_leaderboard_on_failure :
    (findWallet (enrich { wallets := [cachedWallet0], trades := [] } "0xabc" 0 "t1"
        (some [()]) none).1.wallets "0xabc").map WalletRow.leaderboard_rank =
      some none ∧
    cachedWallet0.leaderboard_rank = some 5 ∧
    (findWallet (enrich { wallets := [cachedWallet0], trades := [] } "0xabc" 0 "t1"
        (some [()]) none).1.wallets "0xabc").map WalletRow.leaderboard_rank ≠
      some cachedWallet0.leaderboard_rank := by
  refine ⟨rfl, rfl, ?_⟩
  intro h
  have h3 : (some (none : Option ℤ)) = some (some 5) := h
  simp at h3

/-- Witness for C6: a concrete stale cached wallet, with both lookups
failed; the returned merge keeps every cached leaderboard field. -/
theorem enrich_partial_failure_witness :
    (enrich { wallets := [cachedWallet0], trades := [] } "0xabc" 0 "t1"
        none none).2 =
      EnrichReturn.merged
        { api_trade_count := cachedWallet0.api_trade_count,
          leaderboard_rank := cachedWallet0.leaderboard_rank,
          leaderboard_pnl := cachedWallet0.leaderboard_pnl,
          leaderboard_volume := cachedWallet0.leaderboard_volume,
          trade_count_key := (none : Option (List Unit)).map List.length,
          api_data_fresh := true } :=
  (enrich_partial_failure { wallets := [cachedWallet0], trades := [] } "0xabc" 0 "t1"
      none none cachedWallet0 rfl rfl).2.1 rfl

end PolymarketWhaleAlerts
